import Mathlib

/-!
Shallow embedding of the botun-aura rendezvous server (`src/main.rs`).

The program keeps a `HashMap<PeerId, PeerStat>` of registered peers, mutated
only by the single `tokio::select!` event loop in `main`:
  - a 10-second timer tick walks the map and dials every stored address
    (the stored address string is re-parsed with `parse()?`);
  - rendezvous `PeerRegistered` inserts a fresh `PeerStat` with normalized
    addresses, `ping = None` and the current timestamp;
  - rendezvous `RegistrationExpired` removes the entry;
  - a successful `ping::Event` updates `ping` and `last_seen` in place;
  - every other swarm event is only logged.
`listen_on_all_interfaces` reads the port from the environment (default 64001)
and listens on the IPv4 and IPv6 wildcard multiaddrs.

The registry is embedded as an association list with `HashMap` semantics
(unique keys), multiaddrs as lists of protocol components, and the event loop
body as a pure transition function on the registry.
-/

namespace Botun

/-- Peer identity (`libp2p::PeerId`): opaque at this layer; carried by its
base58 string rendering, which is what `PeerId::to_string()` produces. -/
structure PeerId where
  base58 : String
deriving DecidableEq, Repr

/-- `PeerId::to_string()`. -/
def PeerId.toString (p : PeerId) : String := p.base58

/-- One component of a multiaddr (`libp2p::multiaddr::Protocol`), restricted
to the constructors this program manipulates or stores. -/
inductive Protocol where
  | ip4 (host : String)
  | ip6 (host : String)
  | tcp (port : Nat)
  | p2p (peer : PeerId)
deriving DecidableEq, Repr

/-- `libp2p::Multiaddr`: a sequence of protocol components. -/
abbrev Multiaddr := List Protocol

/-- `Multiaddr::empty()`. -/
def maEmpty : Multiaddr := []

/-- `Multiaddr::with(p)`: append one protocol component. -/
def maWith (a : Multiaddr) (p : Protocol) : Multiaddr := a ++ [p]

/-- `Multiaddr::ends_with(&other)`: the component sequence of `other` is a
suffix of the component sequence of `a`. -/
def maEndsWith (a suffix : Multiaddr) : Bool := decide (suffix <:+ a)

/-- Render one protocol component, as `Multiaddr::to_string()` does. -/
def Protocol.render : Protocol → String
  | .ip4 h => "/ip4/" ++ h
  | .ip6 h => "/ip6/" ++ h
  | .tcp p => "/tcp/" ++ Nat.repr p
  | .p2p pid => "/p2p/" ++ pid.base58

/-- `Multiaddr::to_string()`: concatenation of the rendered components. -/
def maToString (a : Multiaddr) : String := String.join (a.map Protocol.render)

/-- Split a character list on a separator character, like Rust string
splitting on a delimiter: `"/a/b" ↦ ["", "a", "b"]`. -/
def splitOnChar (c : Char) : List Char → List (List Char)
  | [] => [[]]
  | x :: rest =>
    let r := splitOnChar c rest
    if x = c then [] :: r
    else
      match r with
      | [] => [[x]]
      | first :: others => (x :: first) :: others

/-- Modelled from the spec: Rust's `str::parse::<u16>()` (external standard
library, not in `src/`) on a character list — an optional leading plus sign,
then one or more decimal digits, value below 2^16. -/
def parseU16Chars (cs : List Char) : Option Nat :=
  let t := match cs with
    | '+' :: rest => rest
    | other => other
  if t = [] then none
  else if t.all (fun c => c.isDigit) then
    let n := t.foldl (fun acc c => acc * 10 + (c.toNat - 48)) 0
    if n < 65536 then some n else none
  else none

/-- `str::parse::<u16>().ok()` on a Lean `String`. -/
def parseU16 (s : String) : Option Nat := parseU16Chars s.data

/-- Modelled from the spec: the body of `Multiaddr::from_str` (external
libp2p code, not in `src/`) for the protocols of this program — a sequence
of `/name/argument` segments; an address string is "a structured,
self-describing address string (protocol/host/port plus an optional embedded
peer-identity suffix)"; anything else fails to parse. -/
def parseSegs : List (List Char) → Option (List Protocol)
  | [] => some []
  | seg :: arg :: rest =>
    if seg = "ip4".data then
      (parseSegs rest).map (fun t => Protocol.ip4 arg.asString :: t)
    else if seg = "ip6".data then
      (parseSegs rest).map (fun t => Protocol.ip6 arg.asString :: t)
    else if seg = "tcp".data then
      match parseU16Chars arg with
      | some n => (parseSegs rest).map (fun t => Protocol.tcp n :: t)
      | none => none
    else if seg = "p2p".data then
      match arg with
      | [] => none
      | _ => (parseSegs rest).map (fun t => Protocol.p2p (PeerId.mk arg.asString) :: t)
    else none
  | _ :: [] => none

/-- Modelled from the spec: `"...".parse::<Multiaddr>()` as an `Option` —
the string must start with `/` and consist of well-formed segments. -/
def parseMultiaddr (s : String) : Option Multiaddr :=
  match splitOnChar '/' s.data with
  | [] :: segs => parseSegs segs
  | _ => none

/-- `struct AddrInfo { address: String }` (main.rs lines 32–35). -/
structure AddrInfo where
  address : String
deriving DecidableEq, Repr

/-- `struct PeerStat` (main.rs lines 37–43): `ping` is `Option<u64>`
milliseconds, `last_seen` is an `i64` epoch-second timestamp. -/
structure PeerStat where
  peer : String
  addrinfo : List AddrInfo
  ping : Option Nat
  last_seen : Int
deriving DecidableEq, Repr

/-- The registry `HashMap<PeerId, PeerStat>` as an association list with
unique keys. -/
abbrev Registry := List (PeerId × PeerStat)

/-- `HashMap::get`: the value stored under `k`, if any. -/
def regLookup : Registry → PeerId → Option PeerStat
  | [], _ => none
  | e :: rest, k => if e.1 = k then some e.2 else regLookup rest k

/-- `HashMap::insert`: replace the entry for `k` if present, else add it. -/
def regInsert : Registry → PeerId → PeerStat → Registry
  | [], k, v => [(k, v)]
  | e :: rest, k, v => if e.1 = k then (k, v) :: rest else e :: regInsert rest k v

/-- `HashMap::get_mut` followed by an in-place update: apply `f` to the value
stored under `k`, if any; otherwise leave the map unchanged. -/
def regModify : Registry → PeerId → (PeerStat → PeerStat) → Registry
  | [], _, _ => []
  | e :: rest, k, f => if e.1 = k then (e.1, f e.2) :: rest else e :: regModify rest k f

/-- `HashMap::remove`: delete the entry for `k`; keys being unique in a
`HashMap`, this is a filter on the association list. -/
def regErase (r : Registry) (k : PeerId) : Registry :=
  r.filter (fun e => decide (e.1 ≠ k))

/-- Number of entries stored under key `k`. -/
def countKey (r : Registry) (k : PeerId) : Nat :=
  (r.filter (fun e => decide (e.1 = k))).length

/-- The `HashMap` invariant: each key appears at most once. -/
def keysNodup (r : Registry) : Prop := (r.map Prod.fst).Nodup

instance (r : Registry) : Decidable (keysNodup r) :=
  List.nodupDecidable (r.map Prod.fst)

/-- A rendezvous registration record (`rendezvous::Registration`, external):
the registering peer's id (`record.peer_id()`), the namespace, and the raw
announced addresses (`record.addresses()`). -/
structure Registration where
  peerId : PeerId
  ns : String
  addresses : List Multiaddr
deriving DecidableEq, Repr

/-- Address-suffix normalization, main.rs lines 146–152: if the address does
not already end with `/p2p/<peer>`, append that component; else keep it. -/
def normalizeAddress (peer : PeerId) (address : Multiaddr) : Multiaddr :=
  let p2pSuffix := Protocol.p2p peer
  if !maEndsWith address (maWith maEmpty p2pSuffix) then
    maWith address p2pSuffix
  else
    address

/-- The `addresses` vector built by the loop at main.rs lines 140–156: one
`AddrInfo` per announced address, holding the string rendering of the
normalized address (suffix = `registration.record.peer_id()`). -/
def normalizeAddresses (record : Registration) : List AddrInfo :=
  record.addresses.map (fun address =>
    { address := maToString (normalizeAddress record.peerId address) })

/-- The swarm events distinguished by the `match` at main.rs lines 117–195.
`pingOk` carries `rtt.as_millis()` as an unbounded natural; the handler casts
it to `u64`. A failed ping and every unlisted event fall into the catch-all
`other` arm, kept here as distinct constructors with the same (empty)
effect. -/
inductive SwarmEvent where
  | newListenAddr (address : Multiaddr)
  | connectionEstablished (peerId : PeerId)
  | connectionClosed (peerId : PeerId)
  | registrationExpired (registration : Registration)
  | peerRegistered (peer : PeerId) (registration : Registration)
  | discoverServed (enquirer : PeerId) (registrationsLen : Nat)
  | pingOk (peer : PeerId) (rttMillis : Nat)
  | pingErr (peer : PeerId)
  | otherEvent
deriving DecidableEq, Repr

/-- The registry mutation performed by one iteration of the event arm of the
`select!` loop (main.rs lines 116–196), with `now` standing for
`chrono::Local::now().timestamp()` at handling time. Log-only arms return
the registry unchanged. -/
def handleEvent (now : Int) (peers : Registry) : SwarmEvent → Registry
  | SwarmEvent.newListenAddr _ => peers
  | SwarmEvent.connectionEstablished _ => peers
  | SwarmEvent.connectionClosed _ => peers
  | SwarmEvent.registrationExpired registration =>
      regErase peers registration.peerId
  | SwarmEvent.peerRegistered peer registration =>
      regInsert peers peer
        { peer := PeerId.toString peer
          addrinfo := normalizeAddresses registration
          ping := none
          last_seen := now }
  | SwarmEvent.discoverServed _ _ => peers
  | SwarmEvent.pingOk peer rttMillis =>
      regModify peers peer (fun st =>
        { st with ping := some (rttMillis % 2 ^ 64), last_seen := now })
  | SwarmEvent.pingErr _ => peers
  | SwarmEvent.otherEvent => peers

/-- The registry after handling a sequence of timestamped events starting
from the empty map (`HashMap::new()`, main.rs line 75). -/
def runEvents (evs : List (Int × SwarmEvent)) : Registry :=
  evs.foldl (fun r te => handleEvent te.1 r te.2) []

/-- Dial every address of one record, as the inner loop of the tick arm
(main.rs lines 107–112) does: `addr.address.parse()?` propagates a parse
failure as an error (the `?` exits `main`), while a dial failure is only
logged. The successful result is the list of dialed multiaddrs. -/
def dialAddrs : List AddrInfo → Except String (List Multiaddr)
  | [] => Except.ok []
  | a :: rest =>
    match parseMultiaddr a.address with
    | none => Except.error a.address
    | some ma => (dialAddrs rest).map (fun tl => ma :: tl)

/-- One liveness-scheduler tick (main.rs lines 104–114): walk every record
and dial every stored address; the first address string that fails to parse
aborts the whole tick (and the event loop) with an error. -/
def tickDials : Registry → Except String (List Multiaddr)
  | [] => Except.ok []
  | (_, stat) :: rest =>
    match dialAddrs stat.addrinfo with
    | Except.error e => Except.error e
    | Except.ok ds =>
      match tickDials rest with
      | Except.error e => Except.error e
      | Except.ok more => Except.ok (ds ++ more)

/-- `BOTUN_AURA_RENDEZVOUS_SERVER_PORT` resolution (main.rs lines 211–214):
`env::var(..).ok().and_then(|s| s.parse().ok()).unwrap_or(64001)`. -/
def resolvePort (envPort : Option String) : Nat :=
  (envPort.bind parseU16).getD 64001

/-- `listen_on_all_interfaces` (main.rs lines 210–228): the pair of
multiaddrs the server asks the swarm to listen on — parsing the formatted
strings `/ip4/0.0.0.0/tcp/{port}` and `/ip6/::/tcp/{port}` yields exactly
these component sequences. -/
def listen_on_all_interfaces (envPort : Option String) : Multiaddr × Multiaddr :=
  let port := resolvePort envPort
  ([Protocol.ip4 "0.0.0.0", Protocol.tcp port],
   [Protocol.ip6 "::", Protocol.tcp port])

/-! ### Normalization lemmas -/

/-- Appending a component makes the address end with that component. -/
theorem maEndsWith_append (a : Multiaddr) (x : Protocol) :
    maEndsWith (a ++ [x]) [x] = true := by
  simp only [maEndsWith, decide_eq_true_eq]
  exact List.suffix_append a [x]

/-- The branch structure of `normalizeAddress`, with the suffix test written
over the one-component suffix list. -/
theorem normalizeAddress_eq (p : PeerId) (a : Multiaddr) :
    normalizeAddress p a =
      if maEndsWith a [Protocol.p2p p] then a else a ++ [Protocol.p2p p] := by
  simp only [normalizeAddress, maWith, maEmpty, List.nil_append]
  cases h : maEndsWith a [Protocol.p2p p] <;> simp [h]

/-- An address that already ends with the suffix is left unchanged. -/
theorem normalizeAddress_of_endsWith (p : PeerId) (a : Multiaddr)
    (h : maEndsWith a [Protocol.p2p p] = true) :
    normalizeAddress p a = a := by
  rw [normalizeAddress_eq, h]
  rfl

/-- An address that does not end with the suffix gets it appended. -/
theorem normalizeAddress_of_not_endsWith (p : PeerId) (a : Multiaddr)
    (h : maEndsWith a [Protocol.p2p p] = false) :
    normalizeAddress p a = a ++ [Protocol.p2p p] := by
  rw [normalizeAddress_eq, h]
  rfl

/-- Every normalized address ends with the peer's identity suffix. -/
theorem maEndsWith_normalizeAddress (p : PeerId) (a : Multiaddr) :
    maEndsWith (normalizeAddress p a) [Protocol.p2p p] = true := by
  cases h : maEndsWith a [Protocol.p2p p] with
  | true => rw [normalizeAddress_of_endsWith p a h]; exact h
  | false => rw [normalizeAddress_of_not_endsWith p a h]; exact maEndsWith_append a _

/-! ### Registry (association-list HashMap) lemmas -/

theorem regLookup_insert_self (r : Registry) (k : PeerId) (v : PeerStat) :
    regLookup (regInsert r k v) k = some v := by
  induction r with
  | nil => simp [regInsert, regLookup]
  | cons e rest ih =>
    by_cases hk : e.1 = k
    · simp [regInsert, hk, regLookup]
    · simp [regInsert, hk, regLookup, ih]

theorem regLookup_insert_ne (r : Registry) (k q : PeerId) (v : PeerStat)
    (h : q ≠ k) : regLookup (regInsert r k v) q = regLookup r q := by
  have hkq : ¬(k = q) := Ne.symm h
  induction r with
  | nil => simp [regInsert, regLookup, hkq]
  | cons e rest ih =>
    by_cases hk : e.1 = k
    · simp [regInsert, hk, regLookup, hkq]
    · simp [regInsert, hk, regLookup, ih]

theorem countKey_of_not_mem (r : Registry) (k : PeerId)
    (h : k ∉ r.map Prod.fst) : countKey r k = 0 := by
  induction r with
  | nil => rfl
  | cons e rest ih =>
    simp only [List.map_cons, List.mem_cons, not_or] at h
    have he : ¬(e.1 = k) := fun hh => h.1 hh.symm
    have h0 := ih h.2
    simp only [countKey, List.filter_cons] at h0 ⊢
    simp [he, h0]

theorem countKey_insert (r : Registry) (k : PeerId) (v : PeerStat)
    (h : keysNodup r) : countKey (regInsert r k v) k = 1 := by
  induction r with
  | nil => simp [regInsert, countKey]
  | cons e rest ih =>
    have hnd : keysNodup rest := by
      have h2 := (List.nodup_cons.mp h).2
      simpa [keysNodup] using h2
    by_cases hk : e.1 = k
    · have hmem : k ∉ rest.map Prod.fst := by
        have h1 := (List.nodup_cons.mp h).1
        rwa [hk] at h1
      have h0 := countKey_of_not_mem rest k hmem
      simp only [countKey, List.filter_cons] at h0 ⊢
      simp [regInsert, hk, List.filter_cons, h0]
    · have h1 := ih hnd
      simp only [countKey, List.filter_cons] at h1 ⊢
      simp [regInsert, hk, List.filter_cons, h1]

theorem regModify_of_absent (r : Registry) (k : PeerId) (f : PeerStat → PeerStat)
    (h : regLookup r k = none) : regModify r k f = r := by
  induction r with
  | nil => rfl
  | cons e rest ih =>
    by_cases hk : e.1 = k
    · simp [regLookup, hk] at h
    · simp only [regLookup, hk, if_false] at h
      simp [regModify, hk, ih h]

theorem regLookup_modify_self (r : Registry) (k : PeerId) (f : PeerStat → PeerStat)
    (st : PeerStat) (h : regLookup r k = some st) :
    regLookup (regModify r k f) k = some (f st) := by
  induction r with
  | nil => simp [regLookup] at h
  | cons e rest ih =>
    by_cases hk : e.1 = k
    · simp only [regLookup, hk, if_true, Option.some.injEq] at h
      simp [regModify, hk, regLookup, h]
    · simp only [regLookup, hk, if_false] at h
      simp [regModify, hk, regLookup, ih h]

theorem regLookup_modify_ne (r : Registry) (k q : PeerId) (f : PeerStat → PeerStat)
    (h : q ≠ k) : regLookup (regModify r k f) q = regLookup r q := by
  have hkq : ¬(k = q) := Ne.symm h
  induction r with
  | nil => rfl
  | cons e rest ih =>
    by_cases hk : e.1 = k
    · simp [regModify, hk, regLookup, hkq]
    · simp [regModify, hk, regLookup, ih]

theorem regLookup_erase_self (r : Registry) (k : PeerId) :
    regLookup (regErase r k) k = none := by
  induction r with
  | nil => rfl
  | cons e rest ih =>
    by_cases hk : e.1 = k
    · simpa [regErase, List.filter_cons, hk] using ih
    · simpa [regErase, List.filter_cons, hk, regLookup] using ih

theorem regLookup_erase_ne (r : Registry) (k q : PeerId) (h : q ≠ k) :
    regLookup (regErase r k) q = regLookup r q := by
  have hkq : ¬(k = q) := Ne.symm h
  induction r with
  | nil => rfl
  | cons e rest ih =>
    by_cases hk : e.1 = k
    · simpa [regErase, List.filter_cons, hk, regLookup, hkq] using ih
    · by_cases hq : e.1 = q
      · simp [regErase, List.filter_cons, hk, regLookup, hq, h]
      · simpa [regErase, List.filter_cons, hk, regLookup, hq] using ih

theorem regErase_of_absent (r : Registry) (k : PeerId)
    (h : regLookup r k = none) : regErase r k = r := by
  induction r with
  | nil => rfl
  | cons e rest ih =>
    by_cases hk : e.1 = k
    · simp [regLookup, hk] at h
    · simp only [regLookup, hk, if_false] at h
      have h2 := ih h
      simp only [regErase, List.filter_cons] at h2 ⊢
      have hcond : decide (e.1 ≠ k) = true := by simpa using hk
      rw [hcond, if_pos rfl, h2]

theorem mem_regInsert (r : Registry) (k : PeerId) (v : PeerStat)
    (e : PeerId × PeerStat) (h : e ∈ regInsert r k v) : e = (k, v) ∨ e ∈ r := by
  induction r with
  | nil =>
    simp only [regInsert, List.mem_singleton] at h
    exact Or.inl h
  | cons c rest ih =>
    by_cases hk : c.1 = k
    · simp only [regInsert, hk, if_true, List.mem_cons] at h
      rcases h with h | h
      · exact Or.inl h
      · exact Or.inr (List.mem_cons_of_mem c h)
    · simp only [regInsert, hk, if_false, List.mem_cons] at h
      rcases h with h | h
      · exact Or.inr (by simp [h])
      · rcases ih h with h2 | h2
        · exact Or.inl h2
        · exact Or.inr (List.mem_cons_of_mem c h2)

theorem mem_regModify (r : Registry) (k : PeerId) (f : PeerStat → PeerStat)
    (e : PeerId × PeerStat) (h : e ∈ regModify r k f) :
    e ∈ r ∨ ∃ d ∈ r, e = (d.1, f d.2) := by
  induction r with
  | nil => simp only [regModify, List.not_mem_nil] at h
  | cons c rest ih =>
    by_cases hk : c.1 = k
    · simp only [regModify, hk, if_true, List.mem_cons] at h
      rcases h with h | h
      · exact Or.inr ⟨c, List.mem_cons_self c rest, by rw [hk]; exact h⟩
      · exact Or.inl (List.mem_cons_of_mem c h)
    · simp only [regModify, hk, if_false, List.mem_cons] at h
      rcases h with h | h
      · exact Or.inl (by simp [h])
      · rcases ih h with h2 | ⟨d, hd, he⟩
        · exact Or.inl (List.mem_cons_of_mem c h2)
        · exact Or.inr ⟨d, List.mem_cons_of_mem c hd, he⟩

theorem mem_regErase (r : Registry) (k : PeerId) (e : PeerId × PeerStat)
    (h : e ∈ regErase r k) : e ∈ r :=
  (List.mem_filter.mp h).1

/-! ### Claim theorems -/

/-- C1: the claim fails on the code — with a registered peer whose stored
address list holds the malformed string `"garbage"` followed by a
well-formed address, the liveness tick aborts with the parse error
(`addr.address.parse()?` at main.rs line 108 propagates out of `main`,
terminating the event loop): the tick does not proceed to the remaining
address and produces no dial list. -/
theorem c1_malformed_address_aborts_tick :
    tickDials
      [((⟨"QmMalformed"⟩ : PeerId),
        { peer := "QmMalformed",
          addrinfo := [{ address := "garbage" },
                       { address := "/ip4/1.2.3.4/tcp/4001" }],
          ping := none, last_seen := 0 })] = Except.error "garbage" := rfl

/-- C2: handling `PeerRegistered` for identity `P` leaves exactly one record
keyed by `P`; its address list is the normalized form of the announced list,
every normalized address ends with `P`'s identity suffix, ping is unset, and
`last_seen` is the handling timestamp. -/
theorem c2_registration_creates_exactly_one (now : Int) (peers : Registry)
    (P : PeerId) (record : Registration) (hP : record.peerId = P)
    (hnd : keysNodup peers) :
    countKey (handleEvent now peers (SwarmEvent.peerRegistered P record)) P = 1 ∧
    regLookup (handleEvent now peers (SwarmEvent.peerRegistered P record)) P =
      some { peer := PeerId.toString P,
             addrinfo := record.addresses.map (fun a =>
               { address := maToString (normalizeAddress P a) }),
             ping := none, last_seen := now } ∧
    ∀ a ∈ record.addresses,
      maEndsWith (normalizeAddress P a) [Protocol.p2p P] = true := by
  refine ⟨?hcount, ?hlook, ?hsuffix⟩
  · simpa [handleEvent] using countKey_insert peers P
      { peer := PeerId.toString P, addrinfo := normalizeAddresses record,
        ping := none, last_seen := now } hnd
  · have hl := regLookup_insert_self peers P
      { peer := PeerId.toString P, addrinfo := normalizeAddresses record,
        ping := none, last_seen := now }
    simpa [handleEvent, normalizeAddresses, hP] using hl
  · intro a _
    exact maEndsWith_normalizeAddress P a

/-- C2 witness: the theorem applied to a concrete registration on the empty
registry. -/
theorem c2_witness :
    (({ peerId := ⟨"QmW"⟩, ns := "rdv",
        addresses := [[Protocol.ip4 "1.2.3.4", Protocol.tcp 4001]] } :
        Registration).peerId = (⟨"QmW"⟩ : PeerId)) ∧
    keysNodup ([] : Registry) ∧
    (countKey (handleEvent 5 [] (SwarmEvent.peerRegistered ⟨"QmW"⟩
        { peerId := ⟨"QmW"⟩, ns := "rdv",
          addresses := [[Protocol.ip4 "1.2.3.4", Protocol.tcp 4001]] }))
        ⟨"QmW"⟩ = 1 ∧
     regLookup (handleEvent 5 [] (SwarmEvent.peerRegistered ⟨"QmW"⟩
        { peerId := ⟨"QmW"⟩, ns := "rdv",
          addresses := [[Protocol.ip4 "1.2.3.4", Protocol.tcp 4001]] }))
        ⟨"QmW"⟩ =
       some { peer := PeerId.toString ⟨"QmW"⟩,
              addrinfo := [[Protocol.ip4 "1.2.3.4", Protocol.tcp 4001]].map
                (fun a =>
                  { address := maToString (normalizeAddress ⟨"QmW"⟩ a) }),
              ping := none, last_seen := 5 } ∧
     ∀ a ∈ [[Protocol.ip4 "1.2.3.4", Protocol.tcp 4001]],
       maEndsWith (normalizeAddress ⟨"QmW"⟩ a) [Protocol.p2p ⟨"QmW"⟩] = true) :=
  ⟨rfl, by decide,
   c2_registration_creates_exactly_one 5 [] ⟨"QmW"⟩
     { peerId := ⟨"QmW"⟩, ns := "rdv",
       addresses := [[Protocol.ip4 "1.2.3.4", Protocol.tcp 4001]] }
     rfl (by decide)⟩

/-- C3: normalization is idempotent — an address already carrying the peer's
identity suffix is returned unchanged, one without it gets the suffix
appended, and normalizing twice yields the same result as normalizing
once. -/
theorem c3_normalization_idempotent (p : PeerId) (a : Multiaddr) :
    (maEndsWith a [Protocol.p2p p] = true → normalizeAddress p a = a) ∧
    (maEndsWith a [Protocol.p2p p] = false →
      normalizeAddress p a = a ++ [Protocol.p2p p]) ∧
    normalizeAddress p (normalizeAddress p a) = normalizeAddress p a := by
  refine ⟨normalizeAddress_of_endsWith p a,
          normalizeAddress_of_not_endsWith p a, ?hidem⟩
  exact normalizeAddress_of_endsWith p _ (maEndsWith_normalizeAddress p a)

/-- C3 witness: both branch hypotheses discharged at concrete addresses. -/
theorem c3_witness :
    (maEndsWith [Protocol.p2p ⟨"QmW"⟩] [Protocol.p2p ⟨"QmW"⟩] = true ∧
     normalizeAddress ⟨"QmW"⟩ [Protocol.p2p ⟨"QmW"⟩] = [Protocol.p2p ⟨"QmW"⟩]) ∧
    (maEndsWith [Protocol.ip4 "1.2.3.4"] [Protocol.p2p ⟨"QmW"⟩] = false ∧
     normalizeAddress ⟨"QmW"⟩ [Protocol.ip4 "1.2.3.4"] =
       [Protocol.ip4 "1.2.3.4"] ++ [Protocol.p2p ⟨"QmW"⟩]) :=
  ⟨⟨by decide,
    (c3_normalization_idempotent ⟨"QmW"⟩ [Protocol.p2p ⟨"QmW"⟩]).1 (by decide)⟩,
   ⟨by decide,
    (c3_normalization_idempotent ⟨"QmW"⟩ [Protocol.ip4 "1.2.3.4"]).2.1 (by decide)⟩⟩

/-- C4: re-registering `P` fully replaces its record — after registering
with addresses A, updating liveness (ping set), and re-registering with
addresses B, the record for `P` holds exactly the normalized B list, a
cleared ping, and the re-registration timestamp; no field survives from the
previous record. -/
theorem c4_replace_on_reregister (t1 t2 t3 : Int) (peers : Registry)
    (P : PeerId) (recA recB : Registration) (rtt : Nat) :
    regLookup
      (handleEvent t3
        (handleEvent t2
          (handleEvent t1 peers (SwarmEvent.peerRegistered P recA))
          (SwarmEvent.pingOk P rtt))
        (SwarmEvent.peerRegistered P recB)) P =
      some { peer := PeerId.toString P,
             addrinfo := recB.addresses.map (fun a =>
               { address := maToString (normalizeAddress recB.peerId a) }),
             ping := none, last_seen := t3 } := by
  have h := regLookup_insert_self
    (handleEvent t2 (handleEvent t1 peers (SwarmEvent.peerRegistered P recA))
      (SwarmEvent.pingOk P rtt)) P
    { peer := PeerId.toString P, addrinfo := normalizeAddresses recB,
      ping := none, last_seen := t3 }
  simpa [handleEvent, normalizeAddresses] using h

/-- C5: a successful liveness probe for a registered identity sets ping to
the probed rtt (milliseconds, cast to u64) and last_seen to the handling
time, leaving the record's identity string and address list and every other
record unchanged; for an unregistered identity the whole registry is left
exactly as it was. -/
theorem c5_liveness_update (now : Int) (peers : Registry) (P : PeerId)
    (rtt : Nat) :
    (∀ st, regLookup peers P = some st →
      regLookup (handleEvent now peers (SwarmEvent.pingOk P rtt)) P =
        some { st with ping := some (rtt % 2 ^ 64), last_seen := now } ∧
      ∀ q, q ≠ P →
        regLookup (handleEvent now peers (SwarmEvent.pingOk P rtt)) q =
          regLookup peers q) ∧
    (regLookup peers P = none →
      handleEvent now peers (SwarmEvent.pingOk P rtt) = peers) := by
  constructor
  · intro st hst
    constructor
    · simpa [handleEvent] using regLookup_modify_self peers P
        (fun st => { st with ping := some (rtt % 2 ^ 64), last_seen := now }) st hst
    · intro q hq
      simpa [handleEvent] using regLookup_modify_ne peers P q
        (fun st => { st with ping := some (rtt % 2 ^ 64), last_seen := now }) hq
  · intro hnone
    simpa [handleEvent] using regModify_of_absent peers P
      (fun st => { st with ping := some (rtt % 2 ^ 64), last_seen := now }) hnone

/-- Concrete record used by the C5 and C6 witnesses. -/
def demoStat : PeerStat :=
  { peer := "QmW", addrinfo := [{ address := "/ip4/1.2.3.4/tcp/4001/p2p/QmW" }],
    ping := none, last_seen := 1 }

/-- Concrete one-record registry used by the C5 and C6 witnesses. -/
def demoReg : Registry := [(⟨"QmW"⟩, demoStat)]

/-- C5 witness: the theorem applied at a registry containing the identity
(present case) and at the empty registry (absent case). -/
theorem c5_witness :
    (regLookup demoReg ⟨"QmW"⟩ = some demoStat) ∧
    (regLookup (handleEvent 9 demoReg (SwarmEvent.pingOk ⟨"QmW"⟩ 25)) ⟨"QmW"⟩ =
       some { demoStat with ping := some (25 % 2 ^ 64), last_seen := 9 } ∧
     ∀ q, q ≠ (⟨"QmW"⟩ : PeerId) →
       regLookup (handleEvent 9 demoReg (SwarmEvent.pingOk ⟨"QmW"⟩ 25)) q =
         regLookup demoReg q) ∧
    (regLookup ([] : Registry) ⟨"QmW"⟩ = none) ∧
    handleEvent 9 ([] : Registry) (SwarmEvent.pingOk ⟨"QmW"⟩ 25) = [] :=
  ⟨by decide,
   (c5_liveness_update 9 demoReg ⟨"QmW"⟩ 25).1 demoStat (by decide),
   by decide,
   (c5_liveness_update 9 [] ⟨"QmW"⟩ 25).2 (by decide)⟩

/-- C6: handling `RegistrationExpired` removes exactly the expiring
identity: its record is gone, every other key is untouched, expiring an
absent identity leaves the registry unchanged, and handling the event twice
equals handling it once. -/
theorem c6_expiry_removes (now t2 : Int) (peers : Registry)
    (reg : Registration) :
    regLookup (handleEvent now peers (SwarmEvent.registrationExpired reg))
        reg.peerId = none ∧
    (∀ q, q ≠ reg.peerId →
      regLookup (handleEvent now peers (SwarmEvent.registrationExpired reg)) q =
        regLookup peers q) ∧
    (regLookup peers reg.peerId = none →
      handleEvent now peers (SwarmEvent.registrationExpired reg) = peers) ∧
    handleEvent t2 (handleEvent now peers (SwarmEvent.registrationExpired reg))
        (SwarmEvent.registrationExpired reg) =
      handleEvent now peers (SwarmEvent.registrationExpired reg) := by
  refine ⟨?h1, ?h2, ?h3, ?h4⟩
  · simpa [handleEvent] using regLookup_erase_self peers reg.peerId
  · intro q hq
    simpa [handleEvent] using regLookup_erase_ne peers reg.peerId q hq
  · intro hnone
    simpa [handleEvent] using regErase_of_absent peers reg.peerId hnone
  · simp only [handleEvent]
    exact regErase_of_absent _ _ (regLookup_erase_self peers reg.peerId)

/-- C6 witness: the theorem applied with the other-key and absent-identity
hypotheses discharged on a concrete registry. -/
theorem c6_witness :
    ((⟨"QmOther"⟩ : PeerId) ≠
      ({ peerId := ⟨"QmW"⟩, ns := "rdv", addresses := [] } :
        Registration).peerId) ∧
    (regLookup (handleEvent 3 demoReg (SwarmEvent.registrationExpired
        { peerId := ⟨"QmW"⟩, ns := "rdv", addresses := [] })) ⟨"QmOther"⟩ =
      regLookup demoReg ⟨"QmOther"⟩) ∧
    (regLookup ([] : Registry)
      ({ peerId := ⟨"QmW"⟩, ns := "rdv", addresses := [] } :
        Registration).peerId = none) ∧
    handleEvent 3 ([] : Registry) (SwarmEvent.registrationExpired
      { peerId := ⟨"QmW"⟩, ns := "rdv", addresses := [] }) = [] :=
  ⟨by decide,
   (c6_expiry_removes 3 4 demoReg
     { peerId := ⟨"QmW"⟩, ns := "rdv", addresses := [] }).2.1
     ⟨"QmOther"⟩ (by decide),
   by decide,
   (c6_expiry_removes 3 4 []
     { peerId := ⟨"QmW"⟩, ns := "rdv", addresses := [] }).2.2.1 (by decide)⟩

/-- C7: log-only events — a new listen address, connection established or
closed, discovery served, a failed liveness probe, and any unrecognized
engine event — leave the registry exactly as it was. -/
theorem c7_non_mutating_events (now : Int) (peers : Registry) (a : Multiaddr)
    (p q r e : PeerId) (n : Nat) :
    handleEvent now peers (SwarmEvent.newListenAddr a) = peers ∧
    handleEvent now peers (SwarmEvent.connectionEstablished p) = peers ∧
    handleEvent now peers (SwarmEvent.connectionClosed q) = peers ∧
    handleEvent now peers (SwarmEvent.discoverServed e n) = peers ∧
    handleEvent now peers (SwarmEvent.pingErr r) = peers ∧
    handleEvent now peers SwarmEvent.otherEvent = peers :=
  ⟨rfl, rfl, rfl, rfl, rfl, rfl⟩

/-- C8: the peer-to-peer listen configuration — the server asks to listen on
the IPv4 wildcard and the IPv6 wildcard multiaddr with one shared port, and
whenever the port environment variable is absent or does not parse as a u16
that port is 64001. -/
theorem c8_listen_config (envPort : Option String) :
    listen_on_all_interfaces envPort =
      ([Protocol.ip4 "0.0.0.0", Protocol.tcp (resolvePort envPort)],
       [Protocol.ip6 "::", Protocol.tcp (resolvePort envPort)]) ∧
    (envPort.bind parseU16 = none → resolvePort envPort = 64001) := by
  refine ⟨rfl, ?hdefault⟩
  intro h
  simp [resolvePort, h]

/-- C8 witness: the default-port hypothesis discharged at a non-numeric
environment value. -/
theorem c8_witness :
    (some "7x" : Option String).bind parseU16 = none ∧
    resolvePort (some "7x") = 64001 :=
  ⟨by decide, (c8_listen_config (some "7x")).2 (by decide)⟩

/-- C9: a registration event whose announced address list is empty still
creates (or replaces) the record for that identity, with an empty address
list, ping unset, and the current timestamp. -/
theorem c9_empty_address_registration (now : Int) (peers : Registry)
    (P : PeerId) (record : Registration) (h : record.addresses = []) :
    regLookup (handleEvent now peers (SwarmEvent.peerRegistered P record)) P =
      some { peer := PeerId.toString P, addrinfo := [], ping := none,
             last_seen := now } := by
  have hl := regLookup_insert_self peers P
    { peer := PeerId.toString P, addrinfo := normalizeAddresses record,
      ping := none, last_seen := now }
  simpa [handleEvent, normalizeAddresses, h] using hl

/-- C9 witness: an empty-address registration on a registry that already
holds a record for the same identity. -/
theorem c9_witness :
    (({ peerId := ⟨"QmW"⟩, ns := "rdv", addresses := [] } :
        Registration).addresses = ([] : List Multiaddr)) ∧
    regLookup (handleEvent 11 demoReg (SwarmEvent.peerRegistered ⟨"QmW"⟩
        { peerId := ⟨"QmW"⟩, ns := "rdv", addresses := [] })) ⟨"QmW"⟩ =
      some { peer := PeerId.toString ⟨"QmW"⟩, addrinfo := [], ping := none,
             last_seen := 11 } :=
  ⟨rfl, c9_empty_address_registration 11 demoReg ⟨"QmW"⟩
    { peerId := ⟨"QmW"⟩, ns := "rdv", addresses := [] } rfl⟩

/-- One event step keeps the stored `peer` string equal to the rendering of
the map key for every record. -/
theorem handleEvent_preserves_peerField (now : Int) (r : Registry)
    (ev : SwarmEvent) (h : ∀ e ∈ r, e.2.peer = PeerId.toString e.1) :
    ∀ e ∈ handleEvent now r ev, e.2.peer = PeerId.toString e.1 := by
  cases ev with
  | newListenAddr a => exact h
  | connectionEstablished p => exact h
  | connectionClosed p => exact h
  | registrationExpired reg =>
    intro e he
    exact h e (mem_regErase r reg.peerId e he)
  | peerRegistered p reg =>
    intro e he
    rcases mem_regInsert r p
        { peer := PeerId.toString p, addrinfo := normalizeAddresses reg,
          ping := none, last_seen := now } e he with h1 | h1
    · rw [h1]
    · exact h e h1
  | discoverServed p n => exact h
  | pingOk p rtt =>
    intro e he
    rcases mem_regModify r p
        (fun st => { st with ping := some (rtt % 2 ^ 64), last_seen := now })
        e he with h1 | ⟨d, hd, hde⟩
    · exact h e h1
    · rw [hde]
      exact h d hd
  | pingErr p => exact h
  | otherEvent => exact h

/-- The invariant holds after folding any event sequence over any registry
that already satisfies it. -/
theorem runEvents_aux (evs : List (Int × SwarmEvent)) :
    ∀ (r : Registry), (∀ e ∈ r, e.2.peer = PeerId.toString e.1) →
      ∀ e ∈ evs.foldl (fun acc te => handleEvent te.1 acc te.2) r,
        e.2.peer = PeerId.toString e.1 := by
  induction evs with
  | nil =>
    intro r h
    simpa using h
  | cons te rest ih =>
    intro r h
    simp only [List.foldl_cons]
    exact ih (handleEvent te.1 r te.2)
      (handleEvent_preserves_peerField te.1 r te.2 h)

/-- C10: in every reachable registry state — any state produced by handling
any event sequence from the empty map — each record's stored `peer` string
equals the string rendering of the map key under which it is stored. -/
theorem c10_peer_field_invariant (evs : List (Int × SwarmEvent)) :
    ∀ e ∈ runEvents evs, e.2.peer = PeerId.toString e.1 := by
  have h0 : ∀ e ∈ ([] : Registry), e.2.peer = PeerId.toString e.1 := by
    intro e he
    simp at he
  exact runEvents_aux evs [] h0

/-- C10 witness: the invariant read off a concrete reachable state. -/
theorem c10_witness :
    ((⟨"QmX"⟩ : PeerId),
      ({ peer := "QmX", addrinfo := [], ping := none, last_seen := 7 } :
        PeerStat)) ∈
      runEvents [(7, SwarmEvent.peerRegistered ⟨"QmX"⟩
        { peerId := ⟨"QmX"⟩, ns := "rdv", addresses := [] })] ∧
    ({ peer := "QmX", addrinfo := [], ping := none, last_seen := 7 } :
      PeerStat).peer = PeerId.toString (⟨"QmX"⟩ : PeerId) :=
  ⟨by decide,
   c10_peer_field_invariant
     [(7, SwarmEvent.peerRegistered ⟨"QmX"⟩
       { peerId := ⟨"QmX"⟩, ns := "rdv", addresses := [] })]
     ((⟨"QmX"⟩ : PeerId),
       ({ peer := "QmX", addrinfo := [], ping := none, last_seen := 7 } :
         PeerStat))
     (by decide)⟩

end Botun
